import Mathlib

/-!
Verification of the geometric slicing subsystem of `brainglobe-heatmap`.

The development shallowly embeds the code of
`brainglobe_heatmap/plane.py`, `brainglobe_heatmap/slicer.py` and
`brainglobe_heatmap/heatmaps.py`.  Machine floating-point numbers are
modelled by real numbers (`ℝ`), and `np.sqrt` by `Real.sqrt`; the
interior-point search of `heatmaps.py` is additionally kept polymorphic
in the scalar field so that its control flow can be reasoned about
uniformly.  Python exceptions are modelled by `Option`/`none`.
-/

set_option maxHeartbeats 1000000

noncomputable section

/-- 3D vectors, as used throughout `plane.py` / `slicer.py`. -/
abbrev Vec3 : Type := ℝ × ℝ × ℝ

/-- 2D vectors (plane-local coordinates). -/
abbrev Vec2 : Type := ℝ × ℝ

/-- Componentwise addition of 3D vectors. -/
def v3add (a b : Vec3) : Vec3 := (a.1 + b.1, a.2.1 + b.2.1, a.2.2 + b.2.2)

/-- Componentwise subtraction of 3D vectors. -/
def v3sub (a b : Vec3) : Vec3 := (a.1 - b.1, a.2.1 - b.2.1, a.2.2 - b.2.2)

/-- Componentwise negation of a 3D vector. -/
def v3neg (a : Vec3) : Vec3 := (-a.1, -a.2.1, -a.2.2)

/-- Scalar multiplication of a 3D vector. -/
def v3smul (c : ℝ) (a : Vec3) : Vec3 := (c * a.1, c * a.2.1, c * a.2.2)

/-- The zero 3D vector (`np.zeros(3)`). -/
def v3zero : Vec3 := (0, 0, 0)

/-- Dot product of 3D vectors (`np.dot`). -/
def dot3 (a b : Vec3) : ℝ := a.1 * b.1 + a.2.1 * b.2.1 + a.2.2 * b.2.2

/-- Cross product of 3D vectors (`np.cross`). -/
def cross3 (a b : Vec3) : Vec3 :=
  (a.2.1 * b.2.2 - a.2.2 * b.2.1,
   a.2.2 * b.1 - a.1 * b.2.2,
   a.1 * b.2.1 - a.2.1 * b.1)

/-- Euclidean norm of a 3D vector (`np.linalg.norm`). -/
def norm3 (a : Vec3) : ℝ := Real.sqrt (dot3 a a)

/-- Read component `i` of a 3D vector (`v[i]`). -/
def getAx (a : Vec3) (i : ℕ) : ℝ :=
  match i with
  | 0 => a.1
  | 1 => a.2.1
  | 2 => a.2.2
  | _ => 0

/-- Replace component `i` of a 3D vector (`v[i] = x`). -/
def setAx (a : Vec3) (i : ℕ) (x : ℝ) : Vec3 :=
  match i with
  | 0 => (x, a.2.1, a.2.2)
  | 1 => (a.1, x, a.2.2)
  | 2 => (a.1, a.2.1, x)
  | _ => a

/-- The `Plane` object of `plane.py`: slicing plane with an (internally
normalized) in-plane basis `u, v`, the derived `normal = u × v`, and the
projection matrix `M = np.vstack([u, v]).T` — note that `M` is built from
the *raw* constructor arguments, not from the normalized basis. -/
structure Plane where
  center : Vec3
  u : Vec3
  v : Vec3
  normal : Vec3
  M : Vec3 × Vec3

/-- `Plane.__init__(origin, u, v)` of `plane.py` (lines 46–57): stores the
origin, normalizes `u` and `v`, sets `normal = np.cross(self.u, self.v)`
and `M = np.vstack([u, v]).T` (raw `u`, `v`).  The runtime `assert` that
`self.u ⋅ self.v ≈ 0` is a no-op when it passes; theorems below carry the
corresponding orthogonality hypotheses. -/
def mkPlane (origin u v : Vec3) : Plane :=
  { center := origin
    u := v3smul (norm3 u)⁻¹ u
    v := v3smul (norm3 v)⁻¹ v
    normal := cross3 (v3smul (norm3 u)⁻¹ u) (v3smul (norm3 v)⁻¹ v)
    M := (u, v) }

/-- `Plane.P3toP2` of `plane.py` (lines 91–95) on a single 3D point:
`(p - self.center) @ self.M`. -/
def Plane.P3toP2 (pl : Plane) (p : Vec3) : Vec2 :=
  (dot3 (v3sub p pl.center) pl.M.1, dot3 (v3sub p pl.center) pl.M.2)

/-- Index of the first nonzero component of a vector
(`np.where(norm != 0)[0][0]`); `none` models the `IndexError` raised when
the vector is all zeros. -/
def first_nonzero (w : Vec3) : Option ℕ :=
  if w.1 ≠ 0 then some 0
  else if w.2.1 ≠ 0 then some 1
  else if w.2.2 ≠ 0 then some 2
  else none

/-- `Plane.from_norm(origin, norm)` of `plane.py` (lines 59–69): build an
in-plane vector `u` from the first nonzero component `m` of `norm`
(`u[n] = norm[m]`, `u[m] = -norm[n]` with `n = (m+1) % 3`), normalize
`norm` and `u`, set `v = np.cross(norm, u)` and construct the plane. -/
def from_norm (origin w : Vec3) : Option Plane :=
  match first_nonzero w with
  | none => none
  | some m =>
    let n := (m + 1) % 3
    let u := setAx (setAx v3zero n (getAx w m)) m (-(getAx w n))
    let wn := v3smul (norm3 w)⁻¹ w
    let un := v3smul (norm3 u)⁻¹ u
    some (mkPlane origin un (cross3 wn un))

/-- `get_ax_idx` of `slicer.py` (lines 10–22); `none` models the
`ValueError` raised for unrecognized orientation strings. -/
def get_ax_idx (orientation : String) : Option ℕ :=
  if orientation = "frontal" then some 0
  else if orientation = "sagittal" then some 2
  else if orientation = "horizontal" then some 1
  else none

/-- The `position` argument of `Slicer.__init__`: `None`, a bare scalar,
or a full 3-vector. -/
inductive SPos where
  | pnone : SPos
  | pscalar : ℝ → SPos
  | pvec : Vec3 → SPos

/-- Position resolution of `Slicer.__init__` (`slicer.py` lines 38–51):
`None` becomes the root centre of mass; a bare scalar with a named
orientation replaces the corresponding axis coordinate of the root centre
of mass; a bare scalar with a free-vector orientation raises
(`ValueError`, modelled by `none`); a full vector is used as-is. -/
def resolve_position (pos : SPos) (ori : String ⊕ Vec3) (rootCOM : Vec3) :
    Option Vec3 :=
  match pos with
  | .pnone => some rootCOM
  | .pscalar q =>
    match ori with
    | .inl s => (get_ax_idx s).map (fun i => setAx rootCOM i q)
    | .inr _ => none
  | .pvec v => some v

/-- The atlas-convention sign flip of `slicer.py` line 54:
`position[2] = -position[2]`. -/
def flip_z (p : Vec3) : Vec3 := (p.1, p.2.1, -p.2.2)

/-- The fixed basis-per-orientation table of `Slicer.__init__`
(`slicer.py` lines 66–71). -/
def named_basis (s : String) : Vec3 × Vec3 :=
  if s = "frontal" then ((0, 0, -1), (0, 1, 0))
  else if s = "sagittal" then ((1, 0, 0), (0, 1, 0))
  else ((0, 0, -1), (-1, 0, 0))

/-- Unit vector along axis `i`. -/
def axVec (i : ℕ) : Vec3 :=
  match i with
  | 0 => (1, 0, 0)
  | 1 => (0, 1, 0)
  | 2 => (0, 0, 1)
  | _ => v3zero

/-- Plane-pair construction of `Slicer.__init__` (`slicer.py` lines
38–83).  After position resolution and the `z` sign flip: for a named
orientation, `shift[axidx] -= thickness`, `p1 = position - shift`, and the
two planes use the fixed basis table with `u1 = u0`, `v1 = -v0`; for a
free orientation vector, `p1 = position + orientation * thickness` and
both planes come from `Plane.from_norm` with normals `orientation` and
`-orientation`.  `none` models the exceptions raised on invalid input. -/
def slicer_planes (pos : SPos) (ori : String ⊕ Vec3) (thickness : ℝ)
    (rootCOM : Vec3) : Option (Plane × Plane) :=
  match resolve_position pos ori rootCOM with
  | none => none
  | some praw =>
    let position := flip_z praw
    match ori with
    | .inl s =>
      match get_ax_idx s with
      | none => none
      | some axidx =>
        let p1 := v3sub position (v3smul (-thickness) (axVec axidx))
        let uv := named_basis s
        some (mkPlane position uv.1 uv.2, mkPlane p1 uv.1 (v3neg uv.2))
    | .inr w =>
      let p1 := v3add position (v3smul thickness w)
      match from_norm position w, from_norm p1 (v3neg w) with
      | some plane0, some plane1 => some (plane0, plane1)
      | _, _ => none

/-- A Python float heatmap value: a real number, or NaN (`none`).  The
`isinstance(v, (float, int))` check of `check_values` is absorbed by the
type. -/
abbrev FloatV : Type := Option ℝ

/-- `check_values` of `heatmaps.py` (lines 30–50): every key must be a
known atlas acronym (`none` models the `ValueError`), NaN values are
dropped, and the pair `(vmax, vmin)` of the remaining values is returned
(`(np.nan, np.nan)` when all values are NaN). -/
def check_values (values : List (String × FloatV)) (atlas : List String) :
    Option (FloatV × FloatV) :=
  if values.all (fun kv => atlas.contains kv.1) then
    match (values.map (fun kv => kv.2)).filterMap id with
    | [] => some (none, none)
    | h :: t => some (some (t.foldl max h), some (t.foldl min h))
  else none

/-- The colormap-range part of `Heatmap.prepare_colors` (`heatmaps.py`
lines 347–361), returning the final `(self.vmin, self.vmax)`.  The Python
comparison `_vmax == _vmin` is false whenever either side is NaN; a
caller-supplied bound is always kept (the `vmin == 0 or vmin` guard only
works around `0.0` being falsy). -/
def prepare_colors_range (values : List (String × FloatV))
    (atlas : List String) (vmin vmax : Option ℝ) : Option (FloatV × FloatV) :=
  match check_values values atlas with
  | none => none
  | some (vmaxA, vminA) =>
    let vminB : FloatV :=
      match vmaxA, vminA with
      | some mx, some mn => if mx = mn then some (mx * 0.5) else some mn
      | _, _ => vminA
    let vminF : FloatV := match vmin with | some q => some q | none => vminB
    let vmaxF : FloatV := match vmax with | some q => some q | none => vmaxA
    some (vminF, vmaxF)

end

/-- The `annotate_regions` argument of `Heatmap`: a boolean, a list of
region names, or a mapping from region names to display values. -/
inductive AnnotateRegions (α : Type) where
  | abool : Bool → AnnotateRegions α
  | alist : List String → AnnotateRegions α
  | adict : List (String × α) → AnnotateRegions α

/-- The `should_annotate` boolean of `Heatmap.plot_subplot`
(`heatmaps.py` lines 591–604): a three-way runtime type inspection of
`annotate_regions`. -/
def should_annotate {α : Type} (ar : AnnotateRegions α) (name : String) :
    Bool :=
  match ar with
  | .abool b => b
  | .alist l => l.contains name
  | .adict d => (d.map (fun kv => kv.1)).contains name

/-- The annotation emitted for one region segment by
`Heatmap.plot_subplot` (`heatmaps.py` lines 591–624): `some text` iff
`should_annotate` holds, the format is `"2D"` and the region is not
`"root"`; for a dict the display text is `str(value)` (`strF`), otherwise
the region's own name.  (The dict lookup cannot fail when
`should_annotate` holds.) -/
def get_region_annotation_text {α : Type} (strF : α → String)
    (format : String) (ar : AnnotateRegions α) (name : String) :
    Option String :=
  if should_annotate ar name ∧ format = "2D" then
    if name ≠ "root" then
      match ar with
      | .adict d => (d.lookup name).map strF
      | _ => some name
    else none
  else none

/-- The key `"{region_name}_segment_{index}"` used by
`Plane.get_projections` (`plane.py` line 116). -/
def seg_key (name : String) (i : ℕ) : String :=
  name ++ "_segment_" ++ toString i

/-- `Plane.get_projections` (`plane.py` lines 105–119), with the external
mesh-intersection, component-splitting and 2D projection abstracted: each
actor is given as its name together with the list of its (already
projected) connected intersection components, and contributes one keyed
entry per component.  An actor with an empty intersection contributes
nothing. -/
def get_projections {α : Type} (actors : List (String × List α)) :
    List (String × α) :=
  actors.flatMap (fun a => a.2.enum.map (fun ip => (seg_key a.1 ip.1, ip.2)))

/-- `pat` matches at the head of `s`. -/
def lead_match : List Char → List Char → Bool
  | [], _ => true
  | _ :: _, [] => false
  | p :: ps, c :: cs => p == c && lead_match ps cs

/-- `pat` occurs contiguously somewhere in `s`. -/
def sub_search (pat : List Char) : List Char → Bool
  | [] => pat.isEmpty
  | c :: cs => lead_match pat (c :: cs) || sub_search pat cs

/-- The Python substring test `region in k`. -/
def str_contains (k region : String) : Bool :=
  sub_search region.toList k.toList

/-- `Slicer.get_structures_slice_coords` (`slicer.py` lines 96–116): the
root actor is appended to the regions, per-segment projections are
computed, and the grouping accessor maps each region name to the values
of every projected entry whose key *contains* the region name as a
substring (`if region in k`). -/
def get_structures_slice_coords {α : Type} (regions : List (String × List α))
    (root : String × List α) :
    List (String × α) × List (String × List α) :=
  let rs := regions ++ [root]
  let projected := get_projections rs
  (projected,
   rs.map (fun r =>
     (r.1, (projected.filter (fun kv => str_contains kv.1 r.1)).map
       (fun kv => kv.2))))


section InteriorPoint

/-!
`find_annotation_position_inside_polygon` of `heatmaps.py` (lines
53–231).  The embedding is polymorphic in the scalar field `K` (floats
are canonically modelled by `K = ℝ`, `np.sqrt` by `Real.sqrt`, see
`find_annotation_position_real` below); `sqrtF` stands for the `np.sqrt`
primitive.  Python's `float('-inf')` (the distance value of a point
outside the polygon) is modelled by `none : Option K`.
-/

variable {K : Type} [LinearOrderedField K] [FloorRing K]

/-- `np.min` over a nonempty list; the `[]` case is unreachable in every
use below (numpy raises upstream on empty input). -/
def np_min (l : List K) : K :=
  match l with
  | [] => 0
  | h :: t => t.foldl min h

/-- `np.max` over a nonempty list; the `[]` case is unreachable in every
use below. -/
def np_max (l : List K) : K :=
  match l with
  | [] => 0
  | h :: t => t.foldl max h

/-- `np.arange(start, stop, step)`: the `⌈(stop - start) / step⌉` values
`start + i * step`. -/
def arange (start stop step : K) : List K :=
  (List.range (⌈(stop - start) / step⌉).toNat).map
    (fun i => start + (i : K) * step)

/-- The closed edge list of a polygon: `segments = np.vstack((vertices,
vertices[0]))`, paired as `(segment_starts, segment_ends)`. -/
def edge_pairs (verts : List (K × K)) : List ((K × K) × (K × K)) :=
  verts.zip (verts.rotate 1)

/-- `matplotlib.path.Path(vertices).contains_point`, modelled by the
standard even-odd ray-crossing test over the closed edge list. -/
def contains_point (verts : List (K × K)) (p : K × K) : Bool :=
  (edge_pairs verts).foldl
    (fun acc e =>
      if Xor' (e.1.2 > p.2) (e.2.2 > p.2) ∧
          p.1 < (e.2.1 - e.1.1) * (p.2 - e.1.2) / (e.2.2 - e.1.2) + e.1.1
      then !acc else acc) false

/-- The minimum distance from a point to the polygon's edges: the body of
`calculate_point_to_edges_distance` after the containment early-return
(`heatmaps.py` lines 103–136).  Edges of positive squared length use the
clamped point-to-segment distance, zero-length edges the distance to the
vertex; the initial `float('inf')` is absorbed by folding the minimum
from the first edge (the edge list is nonempty whenever the vertex list
is). -/
def calc_dist_core (sqrtF : K → K) (verts : List (K × K)) (p : K × K) : K :=
  np_min ((edge_pairs verts).map (fun e =>
    let ex := e.2.1 - e.1.1
    let ey := e.2.2 - e.1.2
    let len2 := ex ^ 2 + ey ^ 2
    if len2 > 0 then
      let r := min (max (((p.1 - e.1.1) * ex + (p.2 - e.1.2) * ey) / len2) 0) 1
      sqrtF ((p.1 - (e.1.1 + r * ex)) ^ 2 + (p.2 - (e.1.2 + r * ey)) ^ 2)
    else
      sqrtF ((p.1 - e.1.1) ^ 2 + (p.2 - e.1.2) ^ 2)))

/-- `calculate_point_to_edges_distance` (`heatmaps.py` lines 86–136):
`none` models the `float('-inf')` returned for a point outside the
polygon. -/
def calc_point_to_edges_distance (sqrtF : K → K) (verts : List (K × K))
    (p : K × K) : Option K :=
  if contains_point verts p then some (calc_dist_core sqrtF verts p)
  else none

/-- One entry of the cell priority queue: the tuple
`(-max_potential, distance, center_x, center_y, cell_radius)` pushed by
`heappush` (`heatmaps.py` lines 171–174 and 220–229). -/
structure PCell (K : Type) where
  negMP : K
  dist : K
  x : K
  y : K
  radius : K

/-- Lexicographic comparison of queue tuples, as used by `heapq`. -/
def cell_le (c d : PCell K) : Prop :=
  c.negMP < d.negMP ∨ (c.negMP = d.negMP ∧
    (c.dist < d.dist ∨ (c.dist = d.dist ∧
      (c.x < d.x ∨ (c.x = d.x ∧
        (c.y < d.y ∨ (c.y = d.y ∧ c.radius ≤ d.radius)))))))

instance cell_le_decidable (c d : PCell K) : Decidable (cell_le c d) := by
  unfold cell_le
  infer_instance

/-- `heappop`: extract a minimal element (by the heap's tuple order) from
the queue.  `heapq` does not specify which of several equal-key elements
is popped; we take the leftmost minimal one. -/
def pop_min : List (PCell K) → Option (PCell K × List (PCell K))
  | [] => none
  | c :: cs =>
    match pop_min cs with
    | none => some (c, [])
    | some (m, rest) =>
      if cell_le c m then some (c, cs) else some (m, c :: rest)

/-- `distance > best_distance`, where `best_distance` may be
`float('-inf')` (`none`). -/
def dist_gt_best (d : K) (best : Option K) : Bool :=
  match best with
  | none => true
  | some b => decide (d > b)

/-- `max_potential - best_distance <= precision`, where `best_distance`
may be `float('-inf')` (`none`, making the left side `+inf`). -/
def break_cond (mp : K) (best : Option K) (precision : K) : Bool :=
  match best with
  | none => false
  | some b => decide (mp - b ≤ precision)

/-- `new_max_potential > best_distance + precision`, where
`best_distance` may be `float('-inf')` (`none`, with
`-inf + precision = -inf`). -/
def push_cond (nmp : K) (best : Option K) (precision : K) : Bool :=
  match best with
  | none => true
  | some b => decide (nmp > b + precision)

/-- The four sub-cells pushed when a popped cell is subdivided
(`heatmaps.py` lines 199–229): each surviving child records the new
half-radius, its centre, its distance (skipped when `-inf`) and its
negated max potential, and is kept only if it can still beat
`best_distance + precision`. -/
def child_cells (sqrtF : K → K) (verts : List (K × K)) (precision : K)
    (c : PCell K) (best : Option K) : List (PCell K) :=
  let nr := c.radius / 2
  [(-nr, -nr), (nr, -nr), (-nr, nr), (nr, nr)].filterMap
    (fun d : K × K =>
      let nx := c.x + d.1
      let ny := c.y + d.2
      match calc_point_to_edges_distance sqrtF verts (nx, ny) with
      | none => none
      | some nd =>
        let nmp := nd + nr * sqrtF 2
        if push_cond nmp best precision then
          some (PCell.mk (-nmp) nd nx ny nr)
        else none)

open Classical in
/-- Number of times `r` can be halved before dropping to
`precision / 2`; used only to bound the refinement loop.  Total (`0` when
no bound exists, which for positive precision cannot happen in an
archimedean field). -/
noncomputable def halvings (precision r : K) : ℕ :=
  if h : ∃ n : ℕ, r ≤ precision / 2 * 2 ^ n then Nat.find h else 0

/-- Measure of one queue cell: `5 ^ halvings`. -/
noncomputable def cell_measure (precision : K) (c : PCell K) : ℕ :=
  5 ^ halvings precision c.radius

/-- Measure of the whole queue; an upper bound on the number of
iterations the refinement loop can still perform. -/
noncomputable def queue_measure (precision : K) (q : List (PCell K)) : ℕ :=
  (q.map (cell_measure precision)).sum

/-- The `while cell_queue:` refinement loop of
`find_annotation_position_inside_polygon` (`heatmaps.py` lines 185–229),
with explicit fuel: pop the cell with the greatest potential; stop when
it cannot improve on the best distance by more than `precision`; update
the best point; subdivide the cell while its radius exceeds
`precision / 2`.  `none` (fuel exhausted) models a loop that has not
terminated; the termination theorem shows `queue_measure + 1` fuel always
suffices for positive precision. -/
def refine_loop (sqrtF : K → K) (verts : List (K × K)) (precision : K) :
    ℕ → List (PCell K) → Option K → K → K → Option (K × K)
  | fuel, queue, best, bestx, besty =>
    match pop_min queue with
    | none => some (bestx, besty)
    | some (c, rest) =>
      match fuel with
      | 0 => none
      | fuel' + 1 =>
        let mp := -c.negMP
        if break_cond mp best precision then some (bestx, besty)
        else
          let st :=
            if dist_gt_best c.dist best then (some c.dist, c.x, c.y)
            else (best, bestx, besty)
          let newQueue :=
            if c.radius > precision / 2 then
              rest ++ child_cells sqrtF verts precision c st.1
            else rest
          refine_loop sqrtF verts precision fuel' newQueue st.1 st.2.1 st.2.2

/-- `find_annotation_position_inside_polygon` of `heatmaps.py` (lines
53–231): bounding box, initial coarse grid (`np.meshgrid` raveled
row-major), initial queue of inside grid points, bounding-box-centre
fallback best point, then the refinement loop.  `none` models the
exceptions raised on an empty vertex array (`np.min`) or a degenerate
bounding box (`np.arange` with zero step), or an unterminated loop (only
possible for non-positive precision). -/
noncomputable def find_annotation_position_inside_polygon (sqrtF : K → K)
    (verts : List (K × K)) (precision : K) : Option (K × K) :=
  match verts with
  | [] => none
  | _ :: _ =>
    let minx := np_min (verts.map (fun v => v.1))
    let miny := np_min (verts.map (fun v => v.2))
    let maxx := np_max (verts.map (fun v => v.1))
    let maxy := np_max (verts.map (fun v => v.2))
    let width := maxx - minx
    let height := maxy - miny
    let cell_size := min width height / 4
    let cell_radius := cell_size / 2
    if cell_size = 0 then none
    else
      let xcoords := arange (minx + cell_radius) maxx cell_size
      let ycoords := arange (miny + cell_radius) maxy cell_size
      let pts := ycoords.flatMap (fun y => xcoords.map (fun x => (x, y)))
      let inside := pts.filter (fun q => contains_point verts q)
      let queue := inside.map (fun q =>
        let d := calc_dist_core sqrtF verts q
        PCell.mk (-(d + cell_radius * sqrtF 2)) d q.1 q.2 cell_radius)
      let bestx := minx + width / 2
      let besty := miny + height / 2
      let best := calc_point_to_edges_distance sqrtF verts (bestx, besty)
      refine_loop sqrtF verts precision (queue_measure precision queue + 1)
        queue best bestx besty

end InteriorPoint

/-- The canonical float instantiation of the interior-point search:
`K = ℝ`, `np.sqrt = Real.sqrt`. -/
noncomputable def find_annotation_position_real (verts : List (ℝ × ℝ))
    (precision : ℝ) : Option (ℝ × ℝ) :=
  find_annotation_position_inside_polygon Real.sqrt verts precision

/-!  ## Theorems about the embedded code -/

/-- C8: `Slicer` construction resolves `frontal → axis 0`,
`horizontal → axis 1`, `sagittal → axis 2` and fails for every other
orientation string; a bare scalar position with a named orientation
yields the root centroid with only that axis coordinate replaced; a bare
scalar position with a free-vector orientation fails. -/
theorem orientation_resolution :
    (get_ax_idx "frontal" = some 0 ∧ get_ax_idx "horizontal" = some 1 ∧
      get_ax_idx "sagittal" = some 2) ∧
    (∀ s : String, s ≠ "frontal" → s ≠ "horizontal" → s ≠ "sagittal" →
      get_ax_idx s = none) ∧
    (∀ (q : ℝ) (s : String) (i : ℕ) (root : Vec3), get_ax_idx s = some i →
      resolve_position (.pscalar q) (.inl s) root = some (setAx root i q)) ∧
    (∀ (q : ℝ) (w root : Vec3),
      resolve_position (.pscalar q) (.inr w) root = none) := by
  refine ⟨⟨rfl, rfl, rfl⟩, ?_, ?_, ?_⟩
  · intro s h1 h2 h3
    simp [get_ax_idx, h1, h2, h3]
  · intro q s i root h
    simp [resolve_position, h]
  · intro q w root
    rfl

/-- Witness for C8 at concrete inputs. -/
theorem orientation_resolution_witness :
    get_ax_idx "coronal" = none ∧
    resolve_position (.pscalar 3) (.inl "frontal") ((1 : ℝ), (2 : ℝ), (5 : ℝ))
      = some (setAx (1, 2, 5) 0 3) ∧
    resolve_position (.pscalar 3) (.inr (1, 0, 0)) ((1 : ℝ), (2 : ℝ), (5 : ℝ))
      = none :=
  ⟨orientation_resolution.2.1 "coronal" (by decide) (by decide) (by decide),
   orientation_resolution.2.2.1 3 "frontal" 0 (1, 2, 5)
     orientation_resolution.1.1,
   orientation_resolution.2.2.2 3 (1, 0, 0) (1, 2, 5)⟩

/-- C3 counterexample: with values `{"A": 1.0, "B": NaN}` and no
caller-supplied bounds, the auto-computed colormap range is
`vmin = 0.5`, `vmax = 1.0` — not `vmin = 1.0` as claimed: when the
NaN-free extrema coincide, `prepare_colors` halves the minimum. -/
theorem prepare_colors_nan_range_cex :
    prepare_colors_range [("A", some 1), ("B", none)] ["A", "B"] none none
      = some (some 0.5, some 1) ∧ ¬ ((0.5 : ℝ) = 1) := by
  constructor
  · norm_num [prepare_colors_range, check_values, List.filterMap_cons]
  · norm_num

/-- C3 (amended): NaN values are excluded from the extrema computation
(`check_values` returns `vmax = vmin = 1.0`), but the final auto-computed
colormap range is `vmin = 0.5 = vmax * 0.5`, `vmax = 1.0`, because equal
extrema trigger the `_vmin = _vmax * 0.5` adjustment. -/
theorem prepare_colors_nan_range_amended :
    check_values [("A", some 1), ("B", none)] ["A", "B"]
      = some (some 1, some 1) ∧
    prepare_colors_range [("A", some 1), ("B", none)] ["A", "B"] none none
      = some (some 0.5, some 1) := by
  constructor
  · norm_num [check_values, List.filterMap_cons]
  · norm_num [prepare_colors_range, check_values, List.filterMap_cons]

/-- Square roots of concrete squares, for evaluating `norm3`. -/
lemma norm3_eval (x y z c : ℝ) (hc : 0 ≤ c) (h : x * x + y * y + z * z = c * c) :
    norm3 (x, y, z) = c := by
  rw [norm3, dot3]
  simp only []
  rw [show x * x + y * y + z * z = c ^ 2 by rw [h]; ring]
  exact Real.sqrt_sq hc

/-- C4 counterexample: a `Plane` built from the non-unit basis vector
`u = (2, 0, 0)` stores the normalized `u = (1, 0, 0)`, yet projecting the
point `origin + 1 * u + 0 * v` (with `u`, `v` the stored basis) returns
`(2, 0)`, not `(1, 0)`: the matrix `M` is built from the raw constructor
arguments, not from the normalized basis. -/
theorem P3toP2_roundtrip_cex :
    (mkPlane (0, 0, 0) (2, 0, 0) (0, 1, 0)).u = (1, 0, 0) ∧
    Plane.P3toP2 (mkPlane (0, 0, 0) (2, 0, 0) (0, 1, 0))
      (v3add (0, 0, 0)
        (v3add (v3smul 1 (mkPlane (0, 0, 0) (2, 0, 0) (0, 1, 0)).u)
          (v3smul 0 (mkPlane (0, 0, 0) (2, 0, 0) (0, 1, 0)).v)))
      = (2, 0) ∧
    ¬ (((2 : ℝ), (0 : ℝ)) = ((1 : ℝ), (0 : ℝ))) := by
  have h2 : norm3 ((2 : ℝ), (0 : ℝ), (0 : ℝ)) = 2 :=
    norm3_eval 2 0 0 2 (by norm_num) (by norm_num)
  have h1 : norm3 ((0 : ℝ), (1 : ℝ), (0 : ℝ)) = 1 :=
    norm3_eval 0 1 0 1 (by norm_num) (by norm_num)
  have hu : (mkPlane (0, 0, 0) (2, 0, 0) (0, 1, 0)).u = ((1 : ℝ), (0 : ℝ), (0 : ℝ)) := by
    show v3smul (norm3 ((2 : ℝ), (0 : ℝ), (0 : ℝ)))⁻¹ ((2 : ℝ), (0 : ℝ), (0 : ℝ)) = _
    rw [h2]
    norm_num [v3smul]
  have hv : (mkPlane (0, 0, 0) (2, 0, 0) (0, 1, 0)).v = ((0 : ℝ), (1 : ℝ), (0 : ℝ)) := by
    show v3smul (norm3 ((0 : ℝ), (1 : ℝ), (0 : ℝ)))⁻¹ ((0 : ℝ), (1 : ℝ), (0 : ℝ)) = _
    rw [h1]
    norm_num [v3smul]
  refine ⟨hu, ?_, by norm_num⟩
  rw [hu, hv]
  norm_num [Plane.P3toP2, mkPlane, v3add, v3sub, v3smul, dot3]

/-- C4 (amended): the projection matrix `M` is built from the raw
constructor arguments `u`, `v`; when those are unit length and orthogonal
(as in every construction path of the repository), projecting
`origin + a * u + b * v` through `P3toP2` returns exactly `(a, b)`. -/
theorem P3toP2_roundtrip_amended (origin u v : Vec3) (a b : ℝ)
    (hu : norm3 u = 1) (hv : norm3 v = 1) (huv : dot3 u v = 0) :
    Plane.P3toP2 (mkPlane origin u v)
      (v3add origin
        (v3add (v3smul a (mkPlane origin u v).u)
          (v3smul b (mkPlane origin u v).v))) = (a, b) := by
  obtain ⟨u1, u2, u3⟩ := u
  obtain ⟨v1, v2, v3⟩ := v
  obtain ⟨o1, o2, o3⟩ := origin
  have hu1 : u1 * u1 + u2 * u2 + u3 * u3 = 1 := by
    apply Real.sqrt_eq_one.mp
    rw [norm3, dot3] at hu
    exact hu
  have hv1 : v1 * v1 + v2 * v2 + v3 * v3 = 1 := by
    apply Real.sqrt_eq_one.mp
    rw [norm3, dot3] at hv
    exact hv
  have huv1 : u1 * v1 + u2 * v2 + u3 * v3 = 0 := by
    rw [dot3] at huv
    exact huv
  simp only [mkPlane, Plane.P3toP2, v3add, v3sub, v3smul, dot3, hu, hv]
  rw [Prod.mk.injEq]
  constructor
  · field_simp
    linear_combination a * hu1 + b * huv1
  · field_simp
    linear_combination b * hv1 + a * huv1

/-- Witness for C4 (amended) at a concrete unit basis. -/
theorem P3toP2_roundtrip_amended_witness :
    Plane.P3toP2 (mkPlane (0, 0, 0) (1, 0, 0) (0, 1, 0))
      (v3add (0, 0, 0)
        (v3add (v3smul 2 (mkPlane (0, 0, 0) (1, 0, 0) (0, 1, 0)).u)
          (v3smul 3 (mkPlane (0, 0, 0) (1, 0, 0) (0, 1, 0)).v))) = (2, 3) :=
  P3toP2_roundtrip_amended (0, 0, 0) (1, 0, 0) (0, 1, 0) 2 3
    (norm3_eval 1 0 0 1 (by norm_num) (by norm_num))
    (norm3_eval 0 1 0 1 (by norm_num) (by norm_num))
    (by norm_num [dot3])

/-- Inputs on which `Slicer.__init__` raises no exception: a recognized
named orientation, or a nonzero free orientation vector with a
non-scalar position. -/
def slicer_ok : SPos → (String ⊕ Vec3) → Prop
  | _, .inl s => (get_ax_idx s).isSome = true
  | .pscalar _, .inr _ => False
  | _, .inr w => w ≠ v3zero

lemma first_nonzero_of_ne (w : Vec3) (hw : w ≠ v3zero) :
    ∃ m, first_nonzero w = some m := by
  by_cases h1 : w.1 = 0
  · by_cases h2 : w.2.1 = 0
    · by_cases h3 : w.2.2 = 0
      · exfalso
        apply hw
        rw [show v3zero = ((0 : ℝ), (0 : ℝ), (0 : ℝ)) from rfl]
        rw [show w = (w.1, w.2.1, w.2.2) from rfl, h1, h2, h3]
      · exact ⟨2, by simp [first_nonzero, h1, h2, h3]⟩
    · exact ⟨1, by simp [first_nonzero, h1, h2]⟩
  · exact ⟨0, by simp [first_nonzero, h1]⟩

lemma from_norm_center (o w : Vec3) (hw : w ≠ v3zero) :
    ∃ pl : Plane, from_norm o w = some pl ∧ pl.center = o := by
  obtain ⟨m, hm⟩ := first_nonzero_of_ne w hw
  refine ⟨_, by rw [from_norm, hm], rfl⟩

lemma v3neg_ne_zero (w : Vec3) (hw : w ≠ v3zero) : v3neg w ≠ v3zero := by
  intro h
  apply hw
  have h1 : (v3neg w).1 = 0 := by rw [h]; rfl
  have h2 : (v3neg w).2.1 = 0 := by rw [h]; rfl
  have h3 : (v3neg w).2.2 = 0 := by rw [h]; rfl
  rw [v3neg] at h1 h2 h3
  rw [show v3zero = ((0 : ℝ), (0 : ℝ), (0 : ℝ)) from rfl]
  rw [show w = (w.1, w.2.1, w.2.2) from rfl]
  simp only [neg_eq_zero] at h1 h2 h3
  rw [h1, h2, h3]

lemma resolve_position_ok (pos : SPos) (ori : String ⊕ Vec3) (root : Vec3)
    (h : slicer_ok pos ori) : ∃ p, resolve_position pos ori root = some p := by
  cases pos with
  | pnone => exact ⟨root, rfl⟩
  | pscalar q =>
    cases ori with
    | inl s =>
      simp only [slicer_ok, Option.isSome_iff_exists] at h
      obtain ⟨i, hi⟩ := h
      exact ⟨setAx root i q, by simp [resolve_position, hi]⟩
    | inr w => exact absurd h not_false
  | pvec v => exact ⟨v, rfl⟩

/-- C10: whatever the form of the `position` argument, the `Slicer`
negates the third coordinate of the resolved position
(`position[2] = -position[2]`) before building either plane, so
`plane0`'s centre is the resolved position with its `z` coordinate
negated and the other two coordinates unchanged. -/
theorem slicer_flips_z (pos : SPos) (ori : String ⊕ Vec3) (t : ℝ)
    (root : Vec3) (hok : slicer_ok pos ori) :
    ∃ (p : Vec3) (pl0 pl1 : Plane),
      resolve_position pos ori root = some p ∧
      slicer_planes pos ori t root = some (pl0, pl1) ∧
      pl0.center = (p.1, p.2.1, -p.2.2) := by
  obtain ⟨p, hp⟩ := resolve_position_ok pos ori root hok
  cases ori with
  | inl s =>
    have hs : (get_ax_idx s).isSome = true := by
      cases pos <;> exact hok
    rw [Option.isSome_iff_exists] at hs
    obtain ⟨i, hi⟩ := hs
    refine ⟨p, mkPlane (flip_z p) (named_basis s).1 (named_basis s).2,
      mkPlane (v3sub (flip_z p) (v3smul (-t) (axVec i))) (named_basis s).1
        (v3neg (named_basis s).2), hp, ?_, rfl⟩
    rw [slicer_planes, hp]
    simp only [hi]
  | inr w =>
    have hw : w ≠ v3zero := by
      cases pos with
      | pnone => exact hok
      | pscalar q => exact absurd hok not_false
      | pvec v => exact hok
    obtain ⟨pl0, h0, hc0⟩ := from_norm_center (flip_z p) w hw
    obtain ⟨pl1, h1, hc1⟩ :=
      from_norm_center (v3add (flip_z p) (v3smul t w)) (v3neg w)
        (v3neg_ne_zero w hw)
    refine ⟨p, pl0, pl1, hp, ?_, hc0⟩
    rw [slicer_planes, hp]
    simp only [h0, h1]

/-- Witness for C10 at a concrete full-vector position and named
orientation. -/
theorem slicer_flips_z_witness :
    ∃ (p : Vec3) (pl0 pl1 : Plane),
      resolve_position (.pvec (1, 2, 5)) (.inl "frontal") ((0 : ℝ), (0 : ℝ), (0 : ℝ))
        = some p ∧
      slicer_planes (.pvec (1, 2, 5)) (.inl "frontal") 10 ((0 : ℝ), (0 : ℝ), (0 : ℝ))
        = some (pl0, pl1) ∧
      pl0.center = (p.1, p.2.1, -p.2.2) :=
  slicer_flips_z (.pvec (1, 2, 5)) (.inl "frontal") 10 (0, 0, 0)
    (by simp [slicer_ok, get_ax_idx])

lemma mem_keys_of_lookup {α : Type} (d : List (String × α)) (name : String)
    (v : α) (h : d.lookup name = some v) : name ∈ d.map (fun kv => kv.1) := by
  induction d with
  | nil => simp [List.lookup] at h
  | cons a t ih =>
    rcases eq_or_ne name a.1 with he | hne
    · simp [he]
    · have hb : (name == a.1) = false := by simp [hne]
      rw [List.lookup_cons, hb] at h
      simp only [List.map_cons, List.mem_cons]
      right
      exact ih h

/-- C6: annotation selection law of `plot_subplot`.  `annotate_regions =
True` annotates every region except `"root"` with its own name; `False`,
`[]` and `{}` annotate nothing (including `"root"`); a list annotates
exactly the listed names (never `"root"`) with their own name; a mapping
annotates exactly the keyed names (never `"root"`) with `str(value)`. -/
theorem annotation_selection_law {α : Type} (strF : α → String) :
    (∀ name : String, name ≠ "root" →
      get_region_annotation_text strF "2D" (.abool true) name = some name) ∧
    (get_region_annotation_text strF "2D" (.abool true) "root" = none) ∧
    (∀ name : String,
      get_region_annotation_text strF "2D" (.abool false) name = none) ∧
    (∀ name : String,
      get_region_annotation_text strF "2D" (.alist []) name = none) ∧
    (∀ name : String,
      get_region_annotation_text strF "2D" (.adict []) name = none) ∧
    (∀ (l : List String) (name : String), name ≠ "root" → name ∈ l →
      get_region_annotation_text strF "2D" (.alist l) name = some name) ∧
    (∀ (l : List String) (name : String), name ∉ l →
      get_region_annotation_text strF "2D" (.alist l) name = none) ∧
    (∀ l : List String,
      get_region_annotation_text strF "2D" (.alist l) "root" = none) ∧
    (∀ (d : List (String × α)) (name : String) (v : α), name ≠ "root" →
      d.lookup name = some v →
      get_region_annotation_text strF "2D" (.adict d) name
        = some (strF v)) ∧
    (∀ (d : List (String × α)) (name : String),
      name ∉ d.map (fun kv => kv.1) →
      get_region_annotation_text strF "2D" (.adict d) name = none) ∧
    (∀ d : List (String × α),
      get_region_annotation_text strF "2D" (.adict d) "root" = none) := by
  refine ⟨?_, ?_, ?_, ?_, ?_, ?_, ?_, ?_, ?_, ?_, ?_⟩
  · intro name h
    simp [get_region_annotation_text, should_annotate, h]
  · simp [get_region_annotation_text, should_annotate]
  · intro name
    simp [get_region_annotation_text, should_annotate]
  · intro name
    simp [get_region_annotation_text, should_annotate]
  · intro name
    simp [get_region_annotation_text, should_annotate]
  · intro l name h hc
    simp [get_region_annotation_text, should_annotate, h, hc]
  · intro l name hc
    simp [get_region_annotation_text, should_annotate, hc]
  · intro l
    simp [get_region_annotation_text, should_annotate]
  · intro d name v h hl
    have hc := mem_keys_of_lookup d name v hl
    simp [get_region_annotation_text, should_annotate, h, hc, hl]
  · intro d name hc
    simp [get_region_annotation_text, should_annotate, hc]
  · intro d
    simp [get_region_annotation_text, should_annotate]

/-- Witness for C6 at concrete inputs of every `annotate_regions`
shape. -/
theorem annotation_selection_law_witness :
    get_region_annotation_text (fun s : String => s) "2D" (.abool true) "TH"
      = some "TH" ∧
    get_region_annotation_text (fun s : String => s) "2D" (.abool true) "root"
      = none ∧
    get_region_annotation_text (fun s : String => s) "2D" (.abool false) "TH"
      = none ∧
    get_region_annotation_text (fun s : String => s) "2D"
      (.alist ["TH", "root"]) "TH" = some "TH" ∧
    get_region_annotation_text (fun s : String => s) "2D"
      (.alist ["TH", "root"]) "root" = none ∧
    get_region_annotation_text (fun s : String => s) "2D"
      (.alist ["TH"]) "RSP" = none ∧
    get_region_annotation_text (fun s : String => s) "2D"
      (.adict [("TH", "Thalamus")]) "TH" = some "Thalamus" ∧
    get_region_annotation_text (fun s : String => s) "2D"
      (.adict [("TH", "Thalamus")]) "RSP" = none :=
  ⟨(annotation_selection_law (fun s => s)).1 "TH" (by decide),
   (annotation_selection_law (fun s => s)).2.1,
   (annotation_selection_law (fun s => s)).2.2.1 "TH",
   (annotation_selection_law (fun s => s)).2.2.2.2.2.1 ["TH", "root"] "TH"
     (by decide) (by decide),
   (annotation_selection_law (fun s => s)).2.2.2.2.2.2.2.1 ["TH", "root"],
   (annotation_selection_law (fun s => s)).2.2.2.2.2.2.1 ["TH"] "RSP"
     (by decide),
   (annotation_selection_law (fun s => s)).2.2.2.2.2.2.2.2.1
     [("TH", "Thalamus")] "TH" "Thalamus" (by decide) (by decide),
   (annotation_selection_law (fun s => s)).2.2.2.2.2.2.2.2.2.1
     [("TH", "Thalamus")] "RSP" (by decide)⟩

lemma lead_match_append (pat rest : List Char) :
    lead_match pat (pat ++ rest) = true := by
  induction pat with
  | nil => rfl
  | cons c cs ih => simp [lead_match, ih]

lemma sub_search_of_lead (pat s : List Char) (h : lead_match pat s = true) :
    sub_search pat s = true := by
  cases s with
  | nil =>
    cases pat with
    | nil => rfl
    | cons c cs => exact absurd h (by simp [lead_match])
  | cons c cs => simp [sub_search, h]

lemma str_contains_seg_key_self (n : String) (i : ℕ) :
    str_contains (seg_key n i) n = true := by
  rw [str_contains, seg_key]
  apply sub_search_of_lead
  have : (n ++ "_segment_" ++ toString i).toList
      = n.toList ++ ("_segment_".toList ++ (toString i).toList) := by
    simp [String.toList, String.data_append]
  rw [this]
  exact lead_match_append _ _

lemma proj_seg_all {α : Type} (n : String) (l : List α) (k : ℕ) :
    (((l.enumFrom k).map (fun ip => (seg_key n ip.1, ip.2))).filter
      (fun kv => str_contains kv.1 n)).map (fun kv => kv.2) = l := by
  induction l generalizing k with
  | nil => rfl
  | cons a t ih =>
    rw [List.enumFrom, List.map_cons, List.filter_cons]
    simp only [str_contains_seg_key_self, if_true]
    rw [List.map_cons, ih]

lemma proj_seg_none {α : Type} (n name : String) (l : List α) (k : ℕ)
    (h : ∀ i, k ≤ i → i < k + l.length →
      str_contains (seg_key n i) name = false) :
    ((l.enumFrom k).map (fun ip => (seg_key n ip.1, ip.2))).filter
      (fun kv => str_contains kv.1 name) = [] := by
  induction l generalizing k with
  | nil => rfl
  | cons a t ih =>
    rw [List.enumFrom, List.map_cons, List.filter_cons]
    rw [h k le_rfl (by simp)]
    simp only [Bool.false_eq_true, if_false]
    exact ih (k + 1) (fun i h1 h2 => h i (by omega) (by simp at h2 ⊢; omega))

lemma filtered_projections {α : Type} (rs : List (String × List α))
    (name : String)
    (h : ∀ r ∈ rs, r.1 ≠ name → ∀ i, i < r.2.length →
      str_contains (seg_key r.1 i) name = false) :
    ((get_projections rs).filter (fun kv => str_contains kv.1 name)).map
      (fun kv => kv.2)
      = rs.flatMap (fun r => if r.1 = name then r.2 else []) := by
  induction rs with
  | nil => rfl
  | cons r rest ih =>
    rw [get_projections, List.flatMap_cons, ← get_projections,
      List.filter_append, List.map_append, List.flatMap_cons]
    have hrest := ih (fun x hx => h x (List.mem_cons_of_mem r hx))
    rw [hrest]
    rcases eq_or_ne r.1 name with he | hne
    · rw [if_pos he, List.enum, ← he]
      rw [proj_seg_all r.1 r.2 0]
    · rw [if_neg hne, List.enum]
      rw [proj_seg_none r.1 name r.2 0
        (fun i _ h2 => h r (List.mem_cons_self r rest) hne i (by simpa using h2))]
      simp

/-- C5 counterexample: with regions named `"A"` and `"AB"`, the grouping
accessor of `get_structures_slice_coords` maps `"A"` to the polygons
`[10, 20]` — including region `"AB"`'s polygon `20` — because grouping
uses the substring test `region in k`, not key equality.  The region's
own segments would be `[10]`. -/
theorem grouping_substring_cex :
    (get_structures_slice_coords [("A", [10]), ("AB", [20])]
      ("root", [30])).2
      = [("A", [10, 20]), ("AB", [20]), ("root", [30])] ∧
    ¬ (([10, 20] : List ℕ) = [10]) := by
  exact ⟨by rfl, by decide⟩

/-- C5 (amended): the grouping accessor maps each region name to the
polygons of every projected entry whose key contains the name as a
substring; this equals exactly the region's own segments whenever the
name is not a substring of any other region's segment keys. -/
theorem grouping_exact_amended {α : Type} (regions : List (String × List α))
    (root : String × List α) (name : String)
    (h : ∀ r ∈ regions ++ [root], r.1 ≠ name → ∀ i, i < r.2.length →
      str_contains (seg_key r.1 i) name = false) :
    ∀ entry ∈ (get_structures_slice_coords regions root).2, entry.1 = name →
      entry.2 = (regions ++ [root]).flatMap
        (fun r => if r.1 = name then r.2 else []) := by
  intro entry hmem he
  rw [get_structures_slice_coords] at hmem
  simp only [List.mem_map] at hmem
  obtain ⟨r, hr, hentry⟩ := hmem
  have h2 : entry.2 = ((get_projections (regions ++ [root])).filter
      (fun kv => str_contains kv.1 r.1)).map (fun kv => kv.2) := by
    rw [← hentry]
  have h1 : r.1 = name := by
    rw [← hentry] at he
    exact he
  rw [h2, h1]
  exact filtered_projections (regions ++ [root]) name h

/-- Witness for C5 (amended): with regions `"A"` and `"root"` the
accessor's entry for `"A"` is exactly the region's own polygon list. -/
theorem grouping_exact_amended_witness :
    (("A", [10]) : String × List ℕ)
      ∈ (get_structures_slice_coords [("A", [10])] ("root", [30])).2 ∧
    ([10] : List ℕ)
      = ([("A", [10]), ("root", [30])] : List (String × List ℕ)).flatMap
        (fun r => if r.1 = "A" then r.2 else []) :=
  ⟨by decide,
   grouping_exact_amended [("A", [10])] ("root", [30]) "A" (by decide)
     ("A", [10]) (by decide) rfl⟩

section EarlyExit

variable {K : Type} [LinearOrderedField K] [FloorRing K]

/-- When no initial grid point lies inside the polygon, the initial queue
is empty and `find_annotation_position_inside_polygon` returns the
bounding-box centre unconditionally — whether or not that centre lies
inside the polygon. -/
lemma find_pos_early_exit (sqrtF : K → K) (v0 : K × K) (vrest : List (K × K))
    (precision : K) (minx miny maxx maxy cs cr : K) (xc yc : List K)
    (hminx : np_min ((v0 :: vrest).map (fun v => v.1)) = minx)
    (hminy : np_min ((v0 :: vrest).map (fun v => v.2)) = miny)
    (hmaxx : np_max ((v0 :: vrest).map (fun v => v.1)) = maxx)
    (hmaxy : np_max ((v0 :: vrest).map (fun v => v.2)) = maxy)
    (hcs : min (maxx - minx) (maxy - miny) / 4 = cs)
    (hcr : cs / 2 = cr)
    (hcs0 : ¬ (cs = 0))
    (hxc : arange (minx + cr) maxx cs = xc)
    (hyc : arange (miny + cr) maxy cs = yc)
    (hgrid : ∀ p ∈ yc.flatMap (fun y => xc.map (fun x => (x, y))),
      contains_point (v0 :: vrest) p = false) :
    find_annotation_position_inside_polygon sqrtF (v0 :: vrest) precision
      = some (minx + (maxx - minx) / 2, miny + (maxy - miny) / 2) := by
  have hfilter : ((yc.flatMap (fun y => xc.map (fun x => (x, y)))).filter
      (fun q => contains_point (v0 :: vrest) q)) = [] := by
    rw [List.filter_eq_nil_iff]
    intro a ha
    rw [hgrid a ha]
    exact Bool.false_ne_true
  rw [find_annotation_position_inside_polygon]
  rw [hminx, hminy, hmaxx, hmaxy, hcs, hcr, hxc, hyc]
  rw [if_neg hcs0]
  simp only [hfilter, List.map_nil]
  rw [refine_loop]
  rfl

end EarlyExit

lemma arange_quarters : arange ((0 : ℝ) + 1 / 4) 2 (1 / 2)
    = [1 / 4, 3 / 4, 5 / 4, 7 / 4] := by
  have hceil : ⌈(((2 : ℝ) - (0 + 1 / 4)) / (1 / 2))⌉ = (4 : ℤ) := by
    rw [Int.ceil_eq_iff]
    constructor <;> norm_num
  rw [arange, hceil]
  rw [show Int.toNat 4 = 4 from rfl]
  rw [show List.range 4 = [0, 1, 2, 3] from rfl]
  norm_num

/-- C2: on the degenerate 3-vertex input `[(0,0), (1,1), (2,2)]` (and
default precision `1.0`) `find_annotation_position_inside_polygon` does
*not* return `None`: it returns the bounding-box centre `(1.0, 1.0)`.
The repository's own test `test_handles_invalid_polygons` asserts `None`
for exactly this input, so the code contradicts its tests (and the empty
input raises a `ValueError` in `np.min` rather than returning
`None`). -/
theorem find_annotation_position_triangle :
    find_annotation_position_real [(0, 0), (1, 1), (2, 2)] 1 = some (1, 1) ∧
    ¬ (find_annotation_position_real [(0, 0), (1, 1), (2, 2)] 1 = none) := by
  have h := find_pos_early_exit Real.sqrt ((0 : ℝ), (0 : ℝ)) [(1, 1), (2, 2)] 1
    0 0 2 2 (1 / 2) (1 / 4) [1 / 4, 3 / 4, 5 / 4, 7 / 4]
    [1 / 4, 3 / 4, 5 / 4, 7 / 4]
    (by norm_num [np_min, List.foldl])
    (by norm_num [np_min, List.foldl])
    (by norm_num [np_max, List.foldl])
    (by norm_num [np_max, List.foldl])
    (by norm_num)
    (by norm_num)
    (by norm_num)
    arange_quarters
    arange_quarters
    ?_
  · have heq : find_annotation_position_real [(0, 0), (1, 1), (2, 2)] 1
        = some (1, 1) := by
      rw [show ((0 : ℝ), (0 : ℝ)) :: [((1 : ℝ), (1 : ℝ)), ((2 : ℝ), (2 : ℝ))]
        = [(0, 0), (1, 1), (2, 2)] from rfl] at h
      rw [find_annotation_position_real, h]
      norm_num
    rw [heq]
    simp
  · intro p hp
    fin_cases hp <;>
      norm_num [contains_point, edge_pairs, List.rotate, Xor']

lemma arange_L : arange ((0 : ℝ) + 5 / 4) 10 (5 / 2)
    = [5 / 4, 15 / 4, 25 / 4, 35 / 4] := by
  have hceil : ⌈(((10 : ℝ) - (0 + 5 / 4)) / (5 / 2))⌉ = (4 : ℤ) := by
    rw [Int.ceil_eq_iff]
    constructor <;> norm_num
  rw [arange, hceil]
  rw [show Int.toNat 4 = 4 from rfl]
  rw [show List.range 4 = [0, 1, 2, 3] from rfl]
  norm_num

/-- C1: on the valid simple L-shaped polygon
`[(0,0), (10,0), (10,0.5), (0.5,0.5), (0.5,10), (0,10)]` (six vertices,
positive area), `find_annotation_position_inside_polygon` returns the
bounding-box centre `(5, 5)`, which lies *outside* the polygon: no point
of the initial coarse grid falls inside the thin L, the cell queue starts
empty, and the outside bounding-box centre is returned as a fallback. -/
theorem find_annotation_position_outside_L :
    find_annotation_position_real
      [(0, 0), (10, 0), (10, 1 / 2), (1 / 2, 1 / 2), (1 / 2, 10), (0, 10)] 1
      = some (5, 5) ∧
    contains_point
      [(0, 0), (10, 0), (10, 1 / 2), (1 / 2, 1 / 2), (1 / 2, 10), (0, 10)]
      ((5 : ℝ), (5 : ℝ)) = false := by
  constructor
  · have h := find_pos_early_exit Real.sqrt ((0 : ℝ), (0 : ℝ))
      [(10, 0), (10, 1 / 2), (1 / 2, 1 / 2), (1 / 2, 10), (0, 10)] 1
      0 0 10 10 (5 / 2) (5 / 4) [5 / 4, 15 / 4, 25 / 4, 35 / 4]
      [5 / 4, 15 / 4, 25 / 4, 35 / 4]
      (by norm_num [np_min, List.foldl])
      (by norm_num [np_min, List.foldl])
      (by norm_num [np_max, List.foldl])
      (by norm_num [np_max, List.foldl])
      (by norm_num)
      (by norm_num)
      (by norm_num)
      arange_L
      arange_L
      ?_
    · rw [find_annotation_position_real]
      rw [show ([(0, 0), (10, 0), (10, 1 / 2), (1 / 2, 1 / 2), (1 / 2, 10), (0, 10)]
          : List (ℝ × ℝ))
        = ((0 : ℝ), (0 : ℝ)) ::
          [(10, 0), (10, 1 / 2), (1 / 2, 1 / 2), (1 / 2, 10), (0, 10)] from rfl]
      rw [h]
      norm_num
    · intro p hp
      fin_cases hp <;>
        norm_num [contains_point, edge_pairs, List.rotate, Xor']
  · norm_num [contains_point, edge_pairs, List.rotate, Xor']

lemma v3eq (a b : Vec3) (h1 : a.1 = b.1) (h2 : a.2.1 = b.2.1)
    (h3 : a.2.2 = b.2.2) : a = b := by
  obtain ⟨a1, a2, a3⟩ := a
  obtain ⟨b1, b2, b3⟩ := b
  simp only at h1 h2 h3
  rw [h1, h2, h3]

lemma dot3_self_pos (a : Vec3) (ha : ¬ (a = v3zero)) : 0 < dot3 a a := by
  obtain ⟨a1, a2, a3⟩ := a
  show 0 < a1 * a1 + a2 * a2 + a3 * a3
  have hge : (0 : ℝ) ≤ a1 * a1 + a2 * a2 + a3 * a3 := by
    nlinarith [sq_nonneg a1, sq_nonneg a2, sq_nonneg a3]
  rcases eq_or_lt_of_le hge with h | h
  · exfalso
    apply ha
    have h1 : a1 = 0 := by nlinarith [sq_nonneg a1, sq_nonneg a2, sq_nonneg a3]
    have h2 : a2 = 0 := by nlinarith [sq_nonneg a1, sq_nonneg a2, sq_nonneg a3]
    have h3 : a3 = 0 := by nlinarith [sq_nonneg a1, sq_nonneg a2, sq_nonneg a3]
    rw [h1, h2, h3]
    rfl
  · exact h

lemma norm3_pos (a : Vec3) (ha : ¬ (a = v3zero)) : 0 < norm3 a := by
  rw [norm3]
  exact Real.sqrt_pos.mpr (dot3_self_pos a ha)

lemma dot3_smul_smul (c c' : ℝ) (a b : Vec3) :
    dot3 (v3smul c a) (v3smul c' b) = c * c' * dot3 a b := by
  simp only [dot3, v3smul]
  ring

lemma normalized_unit (a : Vec3) (ha : ¬ (a = v3zero)) :
    dot3 (v3smul (norm3 a)⁻¹ a) (v3smul (norm3 a)⁻¹ a) = 1 := by
  have h1 : 0 < dot3 a a := dot3_self_pos a ha
  have h2 : norm3 a * norm3 a = dot3 a a := by
    rw [norm3]
    exact Real.mul_self_sqrt (le_of_lt h1)
  have hn : norm3 a ≠ 0 := ne_of_gt (norm3_pos a ha)
  rw [dot3_smul_smul, ← h2]
  field_simp

lemma norm3_one_of_dot (a : Vec3) (h : dot3 a a = 1) : norm3 a = 1 := by
  rw [norm3, h, Real.sqrt_one]

lemma v3smul_inv_one (a : Vec3) : v3smul ((1 : ℝ))⁻¹ a = a := by
  apply v3eq <;> simp [v3smul]

lemma dot3_comm (a b : Vec3) : dot3 a b = dot3 b a := by
  simp only [dot3]
  ring

lemma cross3_self_dot (a b : Vec3) :
    dot3 (cross3 a b) (cross3 a b)
      = dot3 a a * dot3 b b - dot3 a b * dot3 a b := by
  simp only [dot3, cross3]
  ring

lemma cross3_triple (a b : Vec3) (ha : dot3 a a = 1) (hab : dot3 a b = 0) :
    cross3 a (cross3 b a) = b := by
  obtain ⟨a1, a2, a3⟩ := a
  obtain ⟨b1, b2, b3⟩ := b
  simp only [dot3] at ha hab
  apply v3eq
  all_goals simp only [cross3]
  · linear_combination b1 * ha - a1 * hab
  · linear_combination b2 * ha - a2 * hab
  · linear_combination b3 * ha - a3 * hab

lemma mkPlane_unit_normal (P a b : Vec3) (ha : dot3 a a = 1)
    (hb : dot3 b b = 1) (hab : dot3 a b = 0) :
    (mkPlane P a (cross3 b a)).normal = b ∧
      (mkPlane P a (cross3 b a)).center = P := by
  have hna : norm3 a = 1 := norm3_one_of_dot a ha
  have hcd : dot3 (cross3 b a) (cross3 b a) = 1 := by
    rw [cross3_self_dot, hb, ha, dot3_comm b a, hab]
    ring
  have hnc : norm3 (cross3 b a) = 1 := norm3_one_of_dot _ hcd
  constructor
  · show cross3 (v3smul (norm3 a)⁻¹ a)
      (v3smul (norm3 (cross3 b a))⁻¹ (cross3 b a)) = b
    rw [hna, hnc, v3smul_inv_one, v3smul_inv_one]
    exact cross3_triple a b ha hab
  · rfl

lemma norm3_neg (a : Vec3) : norm3 (v3neg a) = norm3 a := by
  rw [norm3, norm3]
  congr 1
  simp only [dot3, v3neg]
  ring

lemma v3smul_neg_arg (c : ℝ) (a : Vec3) :
    v3smul c (v3neg a) = v3neg (v3smul c a) := by
  apply v3eq <;> simp [v3smul, v3neg]

lemma dot3_neg_neg (a b : Vec3) : dot3 (v3neg a) (v3neg b) = dot3 a b := by
  simp only [dot3, v3neg]
  ring

lemma from_norm_pair (P P1 w u : Vec3) (m : ℕ)
    (hm : first_nonzero w = some m)
    (hmneg : first_nonzero (v3neg w) = some m)
    (hw0 : ¬ (w = v3zero))
    (hu : u = setAx (setAx v3zero ((m + 1) % 3) (getAx w m)) m
      (-(getAx w ((m + 1) % 3))))
    (hu0 : ¬ (u = v3zero))
    (hperp : dot3 u w = 0)
    (hneg_u : setAx (setAx v3zero ((m + 1) % 3) (getAx (v3neg w) m)) m
      (-(getAx (v3neg w) ((m + 1) % 3))) = v3neg u) :
    ∃ pl0 pl1 : Plane,
      from_norm P w = some pl0 ∧ from_norm P1 (v3neg w) = some pl1 ∧
      pl0.center = P ∧ pl1.center = P1 ∧
      pl0.normal = v3smul (norm3 w)⁻¹ w ∧
      pl1.normal = v3neg (v3smul (norm3 w)⁻¹ w) := by
  have hnegw0 : ¬ (v3neg w = v3zero) := v3neg_ne_zero w hw0
  have hnegu0 : ¬ (v3neg u = v3zero) := v3neg_ne_zero u hu0
  have hunit_u := normalized_unit u hu0
  have hunit_w := normalized_unit w hw0
  have hunit_u' := normalized_unit (v3neg u) hnegu0
  have hunit_w' := normalized_unit (v3neg w) hnegw0
  have hperp' : dot3 (v3smul (norm3 u)⁻¹ u) (v3smul (norm3 w)⁻¹ w) = 0 := by
    rw [dot3_smul_smul, hperp]
    ring
  have hperpn : dot3 (v3smul (norm3 (v3neg u))⁻¹ (v3neg u))
      (v3smul (norm3 (v3neg w))⁻¹ (v3neg w)) = 0 := by
    rw [dot3_smul_smul, dot3_neg_neg, hperp]
    ring
  obtain ⟨hn0, hc0⟩ := mkPlane_unit_normal P (v3smul (norm3 u)⁻¹ u)
    (v3smul (norm3 w)⁻¹ w) hunit_u hunit_w hperp'
  obtain ⟨hn1, hc1⟩ := mkPlane_unit_normal P1
    (v3smul (norm3 (v3neg u))⁻¹ (v3neg u))
    (v3smul (norm3 (v3neg w))⁻¹ (v3neg w)) hunit_u' hunit_w' hperpn
  have hwn' : v3smul (norm3 (v3neg w))⁻¹ (v3neg w)
      = v3neg (v3smul (norm3 w)⁻¹ w) := by
    rw [norm3_neg, v3smul_neg_arg]
  refine ⟨mkPlane P (v3smul (norm3 u)⁻¹ u)
      (cross3 (v3smul (norm3 w)⁻¹ w) (v3smul (norm3 u)⁻¹ u)),
    mkPlane P1 (v3smul (norm3 (v3neg u))⁻¹ (v3neg u))
      (cross3 (v3smul (norm3 (v3neg w))⁻¹ (v3neg w))
        (v3smul (norm3 (v3neg u))⁻¹ (v3neg u))),
    ?_, ?_, hc0, hc1, ?_, ?_⟩
  · rw [from_norm, hm, hu]
  · rw [from_norm, hmneg, ← hneg_u]
  · exact hn0
  · rw [hn1, hwn']

/-- The slicing direction of a `Slicer`: the axis unit vector for a named
orientation, the raw orientation vector otherwise. -/
def ori_direction (ori : String ⊕ Vec3) : Vec3 :=
  match ori with
  | .inl s =>
    match get_ax_idx s with
    | some i => axVec i
    | none => v3zero
  | .inr w => w

lemma v3sub_neg_smul (P e : Vec3) (t : ℝ) :
    v3sub P (v3smul (-t) e) = v3add P (v3smul t e) := by
  apply v3eq <;> simp [v3sub, v3add, v3smul]

lemma v3add_smul_zero (P e : Vec3) : v3add P (v3smul 0 e) = P := by
  apply v3eq <;> simp [v3add, v3smul]

lemma dot3_neg_right (a b : Vec3) : dot3 a (v3neg b) = -(dot3 a b) := by
  simp only [dot3, v3neg]
  ring

lemma cross3_neg_left (a b : Vec3) :
    cross3 (v3neg a) b = v3neg (cross3 a b) := by
  apply v3eq <;> simp [cross3, v3neg] <;> ring

lemma named_pair (P Q u0 v0 n0 : Vec3)
    (ha : dot3 u0 u0 = 1) (hb : dot3 n0 n0 = 1) (hab : dot3 u0 n0 = 0)
    (hv : cross3 n0 u0 = v0) :
    (mkPlane P u0 v0).normal = n0 ∧ (mkPlane P u0 v0).center = P ∧
    (mkPlane Q u0 (v3neg v0)).normal = v3neg n0 ∧
    (mkPlane Q u0 (v3neg v0)).center = Q := by
  have h1 := mkPlane_unit_normal P u0 n0 ha hb hab
  rw [hv] at h1
  have hbn : dot3 (v3neg n0) (v3neg n0) = 1 := by
    rw [dot3_neg_neg]
    exact hb
  have habn : dot3 u0 (v3neg n0) = 0 := by
    rw [dot3_neg_right, hab]
    ring
  have h2 := mkPlane_unit_normal Q u0 (v3neg n0) ha hbn habn
  rw [cross3_neg_left, hv] at h2
  exact ⟨h1.1, h1.2, h2.1, h2.2⟩

lemma slicer_free_case (p : Vec3) (t : ℝ) (w : Vec3) (pos : SPos)
    (root : Vec3)
    (hp : resolve_position pos (Sum.inr w) root = some p)
    (pl0 pl1 : Plane)
    (hf0 : from_norm (flip_z p) w = some pl0)
    (hf1 : from_norm (v3add (flip_z p) (v3smul t w)) (v3neg w) = some pl1)
    (hc0 : pl0.center = flip_z p)
    (hc1 : pl1.center = v3add (flip_z p) (v3smul t w))
    (hn0 : pl0.normal = v3smul (norm3 w)⁻¹ w)
    (hn1 : pl1.normal = v3neg (v3smul (norm3 w)⁻¹ w)) :
    ∃ (q0 q1 : Plane),
      slicer_planes pos (Sum.inr w) t root = some (q0, q1) ∧
      q1.normal = v3neg q0.normal ∧
      q1.center = v3add q0.center (v3smul t (ori_direction (Sum.inr w))) ∧
      (∀ w' : Vec3, (Sum.inr w : String ⊕ Vec3) = Sum.inr w' →
        q0.normal = v3smul (norm3 w')⁻¹ w' ∧
        q1.normal = v3neg (v3smul (norm3 w')⁻¹ w')) ∧
      (t = 0 → q1.center = q0.center) := by
  refine ⟨pl0, pl1, ?_, ?_, ?_, ?_, ?_⟩
  · rw [slicer_planes, hp]
    simp only [hf0, hf1]
  · rw [hn1, hn0]
  · rw [hc1, hc0, ori_direction]
  · intro w' hw'
    have : w = w' := by injection hw'
    rw [← this]
    exact ⟨hn0, hn1⟩
  · intro ht
    rw [hc1, hc0, ht, v3add_smul_zero]

/-- C7: for every slab the `Slicer` builds, the two planes have opposite
normals (`plane1.normal = -plane0.normal`); for a free orientation vector
`v`, `plane0.normal = normalize v` and `plane1.normal = -normalize v`;
`plane1` is centred at `position + direction * thickness`, so thickness
`0` legally yields two coincident planes with opposite normals. -/
theorem slab_symmetry (pos : SPos) (ori : String ⊕ Vec3) (t : ℝ)
    (root : Vec3) (hok : slicer_ok pos ori) :
    ∃ (pl0 pl1 : Plane),
      slicer_planes pos ori t root = some (pl0, pl1) ∧
      pl1.normal = v3neg pl0.normal ∧
      pl1.center = v3add pl0.center (v3smul t (ori_direction ori)) ∧
      (∀ w : Vec3, ori = Sum.inr w →
        pl0.normal = v3smul (norm3 w)⁻¹ w ∧
        pl1.normal = v3neg (v3smul (norm3 w)⁻¹ w)) ∧
      (t = 0 → pl1.center = pl0.center) := by
  obtain ⟨p, hp⟩ := resolve_position_ok pos ori root hok
  cases ori with
  | inl s =>
    have hs : (get_ax_idx s).isSome = true := by cases pos <;> exact hok
    have hcases : s = "frontal" ∨ s = "sagittal" ∨ s = "horizontal" := by
      by_cases hf : s = "frontal"
      · exact Or.inl hf
      · by_cases hg : s = "sagittal"
        · exact Or.inr (Or.inl hg)
        · by_cases hh : s = "horizontal"
          · exact Or.inr (Or.inr hh)
          · rw [get_ax_idx] at hs
            simp [hf, hg, hh] at hs
    have hshape : ∀ (u0 v0 n0 : Vec3) (i : ℕ),
        named_basis s = (u0, v0) → get_ax_idx s = some i →
        dot3 u0 u0 = 1 → dot3 n0 n0 = 1 → dot3 u0 n0 = 0 →
        cross3 n0 u0 = v0 →
        ∃ (pl0 pl1 : Plane),
          slicer_planes pos (Sum.inl s) t root = some (pl0, pl1) ∧
          pl1.normal = v3neg pl0.normal ∧
          pl1.center = v3add pl0.center
            (v3smul t (ori_direction (Sum.inl s))) ∧
          (∀ w : Vec3, Sum.inl s = Sum.inr w →
            pl0.normal = v3smul (norm3 w)⁻¹ w ∧
            pl1.normal = v3neg (v3smul (norm3 w)⁻¹ w)) ∧
          (t = 0 → pl1.center = pl0.center) := by
      intro u0 v0 n0 i huv hi ha hb hab hv
      obtain ⟨hpn0, hpc0, hpn1, hpc1⟩ := named_pair (flip_z p)
        (v3sub (flip_z p) (v3smul (-t) (axVec i))) u0 v0 n0 ha hb hab hv
      refine ⟨mkPlane (flip_z p) u0 v0,
        mkPlane (v3sub (flip_z p) (v3smul (-t) (axVec i))) u0 (v3neg v0),
        ?_, ?_, ?_, ?_, ?_⟩
      · rw [slicer_planes, hp]
        simp only [hi, huv]
      · rw [hpn1, hpn0]
      · rw [hpc1, hpc0, ori_direction]
        simp only [hi]
        rw [v3sub_neg_smul]
      · intro w hw
        exact (Sum.noConfusion hw)
      · intro ht
        rw [hpc1, hpc0, ht, neg_zero]
        apply v3eq <;> simp [v3sub, v3smul]
    rcases hcases with hf | hg | hh
    · subst hf
      exact hshape (0, 0, -1) (0, 1, 0) (1, 0, 0) 0 rfl rfl
        (by norm_num [dot3]) (by norm_num [dot3]) (by norm_num [dot3])
        (by norm_num [cross3])
    · subst hg
      exact hshape (1, 0, 0) (0, 1, 0) (0, 0, 1) 2 rfl rfl
        (by norm_num [dot3]) (by norm_num [dot3]) (by norm_num [dot3])
        (by norm_num [cross3])
    · subst hh
      exact hshape (0, 0, -1) (-1, 0, 0) (0, 1, 0) 1 rfl rfl
        (by norm_num [dot3]) (by norm_num [dot3]) (by norm_num [dot3])
        (by norm_num [cross3])
  | inr w =>
    have hw : ¬ (w = v3zero) := by
      cases pos with
      | pnone => exact hok
      | pscalar q => exact absurd hok not_false
      | pvec v => exact hok
    by_cases h1 : w.1 = 0
    · by_cases h2 : w.2.1 = 0
      · have h3 : ¬ (w.2.2 = 0) := by
          intro h3
          apply hw
          apply v3eq <;> simp [v3zero, h1, h2, h3]
        obtain ⟨pl0, pl1, hf0, hf1, hc0, hc1, hn0, hn1⟩ :=
          from_norm_pair (flip_z p) (v3add (flip_z p) (v3smul t w)) w
            (w.2.2, 0, -w.1) 2
            (by simp [first_nonzero, h1, h2, h3])
            (by simp [first_nonzero, v3neg, h1, h2, h3])
            hw rfl
            (by
              intro hh
              apply h3
              have := congrArg (fun v : Vec3 => v.1) hh
              simpa [v3zero] using this)
            (by simp [dot3]; ring)
            (by apply v3eq <;> simp [setAx, getAx, v3neg, v3zero])
        exact slicer_free_case p t w pos root hp pl0 pl1 hf0 hf1 hc0 hc1
          hn0 hn1
      · obtain ⟨pl0, pl1, hf0, hf1, hc0, hc1, hn0, hn1⟩ :=
          from_norm_pair (flip_z p) (v3add (flip_z p) (v3smul t w)) w
            (0, -w.2.2, w.2.1) 1
            (by simp [first_nonzero, h1, h2])
            (by simp [first_nonzero, v3neg, h1, h2])
            hw rfl
            (by
              intro hh
              apply h2
              have := congrArg (fun v : Vec3 => v.2.2) hh
              simpa [v3zero] using this)
            (by simp [dot3]; ring)
            (by apply v3eq <;> simp [setAx, getAx, v3neg, v3zero])
        exact slicer_free_case p t w pos root hp pl0 pl1 hf0 hf1 hc0 hc1
          hn0 hn1
    · obtain ⟨pl0, pl1, hf0, hf1, hc0, hc1, hn0, hn1⟩ :=
        from_norm_pair (flip_z p) (v3add (flip_z p) (v3smul t w)) w
          (-w.2.1, w.1, 0) 0
          (by simp [first_nonzero, h1])
          (by simp [first_nonzero, v3neg, h1])
          hw rfl
          (by
            intro hh
            apply h1
            have := congrArg (fun v : Vec3 => v.2.1) hh
            simpa [v3zero] using this)
          (by simp [dot3]; ring)
          (by apply v3eq <;> simp [setAx, getAx, v3neg, v3zero])
      exact slicer_free_case p t w pos root hp pl0 pl1 hf0 hf1 hc0 hc1
        hn0 hn1

/-- Witness for C7 at a named orientation and at a free orientation
vector. -/
theorem slab_symmetry_witness :
    (∃ (pl0 pl1 : Plane),
      slicer_planes .pnone (Sum.inl "frontal") 10 ((1 : ℝ), (2 : ℝ), (3 : ℝ))
        = some (pl0, pl1) ∧
      pl1.normal = v3neg pl0.normal ∧
      pl1.center = v3add pl0.center
        (v3smul 10 (ori_direction (Sum.inl "frontal"))) ∧
      (∀ w : Vec3, (Sum.inl "frontal" : String ⊕ Vec3) = Sum.inr w →
        pl0.normal = v3smul (norm3 w)⁻¹ w ∧
        pl1.normal = v3neg (v3smul (norm3 w)⁻¹ w)) ∧
      ((10 : ℝ) = 0 → pl1.center = pl0.center)) ∧
    (∃ (pl0 pl1 : Plane),
      slicer_planes .pnone (Sum.inr (0, 3, 0)) 0 ((1 : ℝ), (2 : ℝ), (3 : ℝ))
        = some (pl0, pl1) ∧
      pl1.normal = v3neg pl0.normal ∧
      pl1.center = v3add pl0.center
        (v3smul 0 (ori_direction (Sum.inr (0, 3, 0)))) ∧
      (∀ w : Vec3, (Sum.inr ((0 : ℝ), (3 : ℝ), (0 : ℝ)) : String ⊕ Vec3) = Sum.inr w →
        pl0.normal = v3smul (norm3 w)⁻¹ w ∧
        pl1.normal = v3neg (v3smul (norm3 w)⁻¹ w)) ∧
      ((0 : ℝ) = 0 → pl1.center = pl0.center)) :=
  ⟨slab_symmetry .pnone (Sum.inl "frontal") 10 (1, 2, 3)
    (by simp [slicer_ok, get_ax_idx]),
   slab_symmetry .pnone (Sum.inr (0, 3, 0)) 0 (1, 2, 3)
    (by
      intro hh
      have h2 := congrArg (fun v : Vec3 => v.2.1) hh
      norm_num [v3zero] at h2)⟩

section Termination

variable {K : Type} [LinearOrderedField K]

lemma pop_min_eq_none (q : List (PCell K)) (h : pop_min q = none) :
    q = [] := by
  cases q with
  | nil => rfl
  | cons c cs =>
    rw [pop_min] at h
    cases hrec : pop_min cs with
    | none =>
      rw [hrec] at h
      exact absurd h (by simp)
    | some mr =>
      obtain ⟨m, r⟩ := mr
      rw [hrec] at h
      dsimp only at h
      by_cases hle : cell_le c m
      · rw [if_pos hle] at h
        exact absurd h (by simp)
      · rw [if_neg hle] at h
        exact absurd h (by simp)

lemma pop_min_measure (precision : K) (q : List (PCell K)) (c : PCell K)
    (rest : List (PCell K)) (h : pop_min q = some (c, rest)) :
    queue_measure precision q
      = cell_measure precision c + queue_measure precision rest := by
  induction q generalizing c rest with
  | nil => simp [pop_min] at h
  | cons a as ih =>
    rw [pop_min] at h
    cases hrec : pop_min as with
    | none =>
      rw [hrec] at h
      have has : as = [] := pop_min_eq_none as hrec
      simp only [Option.some.injEq, Prod.mk.injEq] at h
      rw [← h.1, ← h.2, has]
      rfl
    | some mr =>
      obtain ⟨m, r⟩ := mr
      rw [hrec] at h
      dsimp only at h
      by_cases hle : cell_le a m
      · rw [if_pos hle] at h
        simp only [Option.some.injEq, Prod.mk.injEq] at h
        rw [← h.1, ← h.2]
        rfl
      · rw [if_neg hle] at h
        simp only [Option.some.injEq, Prod.mk.injEq] at h
        have hih := ih m r hrec
        rw [← h.1, ← h.2]
        have h1 : queue_measure precision (a :: as)
            = cell_measure precision a + queue_measure precision as := rfl
        have h2 : queue_measure precision (a :: r)
            = cell_measure precision a + queue_measure precision r := rfl
        rw [h1, h2, hih]
        omega

lemma child_cells_radius (sqrtF : K → K) (verts : List (K × K))
    (precision : K) (c : PCell K) (best : Option K) :
    ∀ d ∈ child_cells sqrtF verts precision c best,
      d.radius = c.radius / 2 := by
  intro d hd
  rw [child_cells, List.mem_filterMap] at hd
  obtain ⟨off, _, hoff⟩ := hd
  dsimp only at hoff
  split at hoff
  · exact absurd hoff (by simp)
  · split at hoff
    · simp only [Option.some.injEq] at hoff
      rw [← hoff]
    · exact absurd hoff (by simp)

lemma child_cells_length (sqrtF : K → K) (verts : List (K × K))
    (precision : K) (c : PCell K) (best : Option K) :
    (child_cells sqrtF verts precision c best).length ≤ 4 := by
  rw [child_cells]
  calc (List.filterMap _ _).length ≤ _ := List.length_filterMap_le _ _
    _ ≤ 4 := by simp

lemma child_measure_le (sqrtF : K → K) (verts : List (K × K))
    (precision : K) (c : PCell K) (best : Option K) :
    queue_measure precision (child_cells sqrtF verts precision c best)
      ≤ 4 * 5 ^ halvings precision (c.radius / 2) := by
  rw [queue_measure]
  have hb : ∀ x ∈ (child_cells sqrtF verts precision c best).map
      (cell_measure precision), x ≤ 5 ^ halvings precision (c.radius / 2) := by
    intro x hx
    rw [List.mem_map] at hx
    obtain ⟨d, hd, hxd⟩ := hx
    rw [← hxd, cell_measure,
      child_cells_radius sqrtF verts precision c best d hd]
  have hsum := List.sum_le_card_nsmul _ _ hb
  rw [List.length_map, smul_eq_mul] at hsum
  calc ((child_cells sqrtF verts precision c best).map
        (cell_measure precision)).sum
      ≤ (child_cells sqrtF verts precision c best).length
          * 5 ^ halvings precision (c.radius / 2) := hsum
    _ ≤ 4 * 5 ^ halvings precision (c.radius / 2) :=
        Nat.mul_le_mul_right _ (child_cells_length sqrtF verts precision c best)

variable [Archimedean K]

lemma halv_exists (precision r : K) (hp : 0 < precision) :
    ∃ n : ℕ, r ≤ precision / 2 * 2 ^ n := by
  rcases le_or_lt r (precision / 2) with h | h
  · exact ⟨0, by simpa using h⟩
  · obtain ⟨n, hn⟩ := pow_unbounded_of_one_lt (r / (precision / 2))
      (by norm_num : (1 : K) < 2)
    refine ⟨n, ?_⟩
    have hp2 : 0 < precision / 2 := by positivity
    have h0 : r = r / (precision / 2) * (precision / 2) := by field_simp
    rw [h0]
    calc r / (precision / 2) * (precision / 2) ≤ 2 ^ n * (precision / 2) :=
          mul_le_mul_of_nonneg_right (le_of_lt hn) (le_of_lt hp2)
      _ = precision / 2 * 2 ^ n := by ring

lemma halv_pos (precision r : K) (hp : 0 < precision)
    (hr : precision / 2 < r) : 1 ≤ halvings precision r := by
  rw [halvings, dif_pos (halv_exists precision r hp)]
  by_contra hcon
  push_neg at hcon
  have h0 : Nat.find (halv_exists precision r hp) = 0 := by omega
  have hspec := Nat.find_spec (halv_exists precision r hp)
  rw [h0] at hspec
  simp at hspec
  linarith

lemma halv_half (precision r : K) (hp : 0 < precision)
    (hr : precision / 2 < r) :
    halvings precision (r / 2) < halvings precision r := by
  have hex_r := halv_exists precision r hp
  have hex_h := halv_exists precision (r / 2) hp
  have hN1 : 1 ≤ halvings precision r := halv_pos precision r hp hr
  have hgl : halvings precision (r / 2) = Nat.find hex_h := by
    rw [halvings, dif_pos hex_h]
  have hgr : halvings precision r = Nat.find hex_r := by
    rw [halvings, dif_pos hex_r]
  rw [hgl, hgr]
  rw [hgr] at hN1
  have hspec := Nat.find_spec hex_r
  have hN : Nat.find hex_r = (Nat.find hex_r - 1) + 1 := by omega
  rw [hN, pow_succ] at hspec
  have hhalf : r / 2 ≤ precision / 2 * 2 ^ (Nat.find hex_r - 1) := by
    linarith
  have hle : Nat.find hex_h ≤ Nat.find hex_r - 1 :=
    Nat.find_min' hex_h hhalf
  omega

lemma refine_loop_fuel (sqrtF : K → K) (verts : List (K × K))
    (precision : K) (hp : 0 < precision) :
    ∀ (fuel : ℕ) (queue : List (PCell K)) (best : Option K) (bx bq : K),
      queue_measure precision queue < fuel →
      ¬ (refine_loop sqrtF verts precision fuel queue best bx bq = none) := by
  intro fuel
  induction fuel with
  | zero =>
    intro queue best bx bq h
    exact absurd h (Nat.not_lt_zero _)
  | succ n ih =>
    intro queue best bx bq hm
    rw [refine_loop]
    cases hpop : pop_min queue with
    | none => simp
    | some cr =>
      obtain ⟨c, rest⟩ := cr
      have hqm := pop_min_measure precision queue c rest hpop
      by_cases hbrk : break_cond (-c.negMP) best precision = true
      · simp [hbrk]
      · simp only [hbrk, Bool.false_eq_true, if_false]
        have hcellpos : 1 ≤ cell_measure precision c :=
          Nat.one_le_pow _ _ (by norm_num)
        by_cases hrad : c.radius > precision / 2
        · rw [if_pos hrad]
          apply ih
          have hdec := halv_half precision c.radius hp hrad
          have happ : queue_measure precision
              (rest ++ child_cells sqrtF verts precision c
                (if dist_gt_best c.dist best = true
                  then (some c.dist, c.x, c.y) else (best, bx, bq)).1)
              = queue_measure precision rest
                + queue_measure precision (child_cells sqrtF verts precision c
                  (if dist_gt_best c.dist best = true
                    then (some c.dist, c.x, c.y) else (best, bx, bq)).1) := by
            rw [queue_measure, queue_measure, queue_measure,
              List.map_append, List.sum_append]
          rw [happ]
          have hch := child_measure_le sqrtF verts precision c
            (if dist_gt_best c.dist best = true
              then (some c.dist, c.x, c.y) else (best, bx, bq)).1
          have hlt : 4 * 5 ^ halvings precision (c.radius / 2)
              < 5 ^ halvings precision c.radius := by
            have h5 : (1 : ℕ) ≤ 5 ^ halvings precision (c.radius / 2) :=
              Nat.one_le_pow _ _ (by norm_num)
            have hstep : 5 ^ (halvings precision (c.radius / 2) + 1)
                ≤ 5 ^ halvings precision c.radius :=
              Nat.pow_le_pow_right (by norm_num) (by omega)
            rw [pow_succ] at hstep
            omega
          have hcm : cell_measure precision c
              = 5 ^ halvings precision c.radius := rfl
          omega
        · rw [if_neg hrad]
          apply ih
          omega

end Termination

/-- C9: for every polygon, every positive precision and every starting
state, the cell-refinement loop of
`find_annotation_position_inside_polygon` terminates within
`queue_measure + 1` iterations (the fuel the embedding gives it): each
subdivision halves the cell radius, a cell is subdivided only while its
radius exceeds `precision / 2`, and the loop stops when the best
remaining upper bound cannot improve the best-known distance by more than
the precision. -/
theorem refine_loop_terminates (verts : List (ℝ × ℝ)) (precision : ℝ)
    (hp : 0 < precision) (queue : List (PCell ℝ)) (best : Option ℝ)
    (bestx besty : ℝ) :
    ¬ (refine_loop Real.sqrt verts precision
        (queue_measure precision queue + 1) queue best bestx besty
        = none) :=
  refine_loop_fuel Real.sqrt verts precision hp _ queue best bestx besty
    (Nat.lt_succ_self _)

/-- Witness for C9 at a concrete polygon and precision. -/
theorem refine_loop_terminates_witness :
    (0 : ℝ) < 1 ∧
    ¬ (refine_loop Real.sqrt [((0 : ℝ), (0 : ℝ)), (2, 0), (0, 2)] 1
        (queue_measure 1 ([] : List (PCell ℝ)) + 1) [] none 1 1 = none) :=
  ⟨by norm_num,
   refine_loop_terminates [((0 : ℝ), (0 : ℝ)), (2, 0), (0, 2)] 1
     (by norm_num) [] none 1 1⟩
